import Mathlib

/- Shallow embedding of the spreadsheet-import core of src/services/excelService.ts.

   Modelling conventions:
   2. JS numbers are modelled by Rat (the sheets the claims touch hold small exact
      decimals, where double arithmetic is exact).
   3. Cell values produced by sheet_to_json with cellDates true are strings, numbers
      or Date objects; a Date object is carried as its local calendar date, which is
      the only attribute the importer reads from it.
   4. uuidv4 and the random palette pick are modelled by a deterministic fresh
      counter: the program only relies on ids being fresh, and no claim mentions
      the drawn color, so determinising the draws loses nothing.
   5. JS string functions (toLowerCase, trim, includes) are re-implemented on
      the character list; the data the importer handles is ASCII-range, where
      these agree with the JS originals. -/

namespace FB

/-- Category record from src/types.ts as used by excelService. -/
structure Category where
  id : String
  name : String
  color : String
  isCustom : Bool
deriving DecidableEq, Repr

/-- Expense record from src/types.ts as used by excelService (notes is always
    supplied by the importer, so it is a plain String here). -/
structure Expense where
  id : String
  amount : Rat
  description : String
  categoryId : String
  date : String
  notes : String
deriving DecidableEq, Repr

/-- A local calendar date (what the importer extracts from a JS Date). -/
structure CalDate where
  year : Int
  month : Int
  day : Int
deriving DecidableEq, Repr

/-- One spreadsheet cell as materialised by sheet_to_json with cellDates. -/
inductive Cell where
  | str (s : String)
  | num (q : Rat)
  | date (d : CalDate)
deriving DecidableEq, Repr

/-- One row keyed by its original headers, in sheet order (Object.keys order). -/
def Row : Type := List (String × Cell)

/-- JS truthiness of a cell value: the empty string and 0 are falsy. -/
def jsTruthy : Cell → Bool
  | .str s => s ≠ ""
  | .num q => q ≠ 0
  | .date _ => true

/-- JS truthiness of a possibly-absent value (undefined and null are falsy). -/
def jsTruthyO : Option Cell → Bool
  | none => false
  | some v => jsTruthy v

/-- Model of String.prototype.toLowerCase (ASCII range). -/
def lowerS (s : String) : String := ⟨s.data.map Char.toLower⟩

/-- Model of String.prototype.trim: strip whitespace at both ends. -/
def trimS (s : String) : String :=
  ⟨((s.data.dropWhile Char.isWhitespace).reverse.dropWhile Char.isWhitespace).reverse⟩

/-- Whether pat is a leading segment of l. -/
def leadsList (pat l : List Char) : Bool :=
  match pat, l with
  | [], _ => true
  | _ :: _, [] => false
  | a :: as, b :: bs => a == b && leadsList as bs

/-- Whether pat occurs somewhere inside l (JS includes on char lists). -/
def occursList (pat l : List Char) : Bool :=
  leadsList pat l ||
    match l with
    | [] => false
    | _ :: t => occursList pat t

/-- Model of JS s.includes(t). -/
def strIncludes (s t : String) : Bool := occursList t.data s.data

/-- Digits of a fraction remainder r over d, at most fuel digits (stands in for
    the finitely many digits a JS double prints; exact for terminating decimals
    of that length). -/
def fracDigits : Nat → Nat → Nat → String
  | 0, _, _ => ""
  | fuel + 1, r, d =>
    if r = 0 then ""
    else
      let r10 := r * 10
      String.singleton (Char.ofNat (48 + r10 / d)) ++ fracDigits fuel (r10 % d) d

/-- Model of JS String(number) for the finite decimals the importer meets. -/
def ratToJsString (q : Rat) : String :=
  let sign := if q < 0 then "-" else ""
  let n := q.num.natAbs
  let d := q.den
  let ip := n / d
  let r0 := n % d
  sign ++ toString ip ++ (if r0 = 0 then "" else "." ++ fracDigits 20 r0 d)

/-- Model of the JS String(...) coercion on a cell value. The string form of a
    Date object is its calendar date here; the importer only ever asks whether
    that string contains a lower-case marker word, which holds for neither the
    JS date string nor this one. -/
def jsToString : Cell → String
  | .str s => s
  | .num q => ratToJsString q
  | .date d =>
      toString d.year ++ "-" ++ toString d.month ++ "-" ++ toString d.day

/-- Value of a digit list read in base 10. -/
def digitsToNat (l : List Char) : Nat :=
  l.foldl (fun acc c => 10 * acc + (c.toNat - 48)) 0

/-- Model of JS parseFloat on a string: optional leading whitespace and sign,
    then the longest numeric prefix digits [ . digits ] [ e [sign] digits ];
    none models NaN.  (The Infinity literal never reaches this code and is not
    modelled.) -/
def parseFloatJS (s : String) : Option Rat :=
  let cs := s.data.dropWhile Char.isWhitespace
  let (sign, cs) : Rat × List Char :=
    match cs with
    | '-' :: t => (-1, t)
    | '+' :: t => (1, t)
    | _ => (1, cs)
  let ip := cs.takeWhile Char.isDigit
  let cs := cs.dropWhile Char.isDigit
  let (fp, cs) : List Char × List Char :=
    match cs with
    | '.' :: t => (t.takeWhile Char.isDigit, t.dropWhile Char.isDigit)
    | _ => ([], cs)
  if ip.isEmpty && fp.isEmpty then none
  else
    let mant : Rat := (digitsToNat ip : Rat) + (digitsToNat fp : Rat) / (10 : Rat) ^ fp.length
    let expo : Int :=
      match cs with
      | 'e' :: t | 'E' :: t =>
        let (esign, t) : Int × List Char :=
          match t with
          | '-' :: u => (-1, u)
          | '+' :: u => (1, u)
          | _ => (1, t)
        let ed := t.takeWhile Char.isDigit
        if ed.isEmpty then 0 else esign * (digitsToNat ed : Int)
      | _ => 0
    let scaled : Rat :=
      if 0 ≤ expo then mant * (10 : Rat) ^ expo.toNat
      else mant / (10 : Rat) ^ (-expo).toNat
    some (sign * scaled)

/-- parseFloat applied to a raw cell value, through the implicit JS string
    coercion: a number parses to itself, a Date string form begins with a
    letter and gives NaN, undefined gives NaN. -/
def parseFloatCell : Option Cell → Option Rat
  | some (.num q) => some q
  | some (.str s) => parseFloatJS s
  | some (.date _) => none
  | none => none

/-- Model of val.replace with a global comma pattern and empty replacement. -/
def stripCommas (s : String) : String := ⟨s.data.filter (fun c => c ≠ ',')⟩

/-- The amount read from one matrix cell (excelService line 173): strings have
    thousands separators stripped first; other values go straight to parseFloat. -/
def matrixAmount : Option Cell → Option Rat
  | some (.str s) => parseFloatJS (stripCommas s)
  | v => parseFloatCell v

/-- Model of the JS word-character class (ASCII letters, digits, underscore). -/
def isWordChar (c : Char) : Bool := c.isAlphanum || c == '_'

/-- Worker for toTitleCase: the flag records whether the scan is inside a
    match of the word-start-then-nonspace pattern from excelService line 14. -/
def titleAux : Bool → List Char → List Char
  | _, [] => []
  | true, c :: rest =>
    if c.isWhitespace then c :: titleAux false rest
    else c.toLower :: titleAux true rest
  | false, c :: rest =>
    if isWordChar c then c.toUpper :: titleAux true rest
    else c :: titleAux false rest

/-- toTitleCase from excelService lines 12-17: each maximal run starting at a
    word character and continuing over non-space characters gets its first
    character upper-cased and the rest lower-cased. -/
def toTitleCase (s : String) : String := ⟨titleAux false s.data⟩

/-- Leap year on the proleptic Gregorian calendar used by JS Date. -/
def isLeap (y : Int) : Bool := y % 4 == 0 && (y % 100 != 0 || y % 400 == 0)

/-- Days in a (1-based) month. -/
def daysInMonth (y m : Int) : Int :=
  if m = 1 ∨ m = 3 ∨ m = 5 ∨ m = 7 ∨ m = 8 ∨ m = 10 ∨ m = 12 then 31
  else if m = 4 ∨ m = 6 ∨ m = 9 ∨ m = 11 then 30
  else if isLeap y then 29 else 28

/-- Roll an overlarge day-of-month forward through following months, as JS
    Date normalisation does.  The fuel bounds the loop; the regex that feeds
    this limits the day to two digits, needing at most four rolls. -/
def normFwd : Nat → Int → Int → Int → CalDate
  | 0, y, m, d => ⟨y, m, d⟩
  | fuel + 1, y, m, d =>
    if d > daysInMonth y m then
      if m = 12 then normFwd fuel (y + 1) 1 (d - daysInMonth y m)
      else normFwd fuel y (m + 1) (d - daysInMonth y m)
    else ⟨y, m, d⟩

/-- Roll a non-positive day-of-month backward through preceding months. -/
def normBack : Nat → Int → Int → Int → CalDate
  | 0, y, m, d => ⟨y, m, d⟩
  | fuel + 1, y, m, d =>
    if d ≥ 1 then ⟨y, m, d⟩
    else
      if m = 1 then normBack fuel (y - 1) 12 (d + daysInMonth (y - 1) 12)
      else normBack fuel y (m - 1) (d + daysInMonth y (m - 1))

/-- Model of new Date(year, month0, day) reduced to its local calendar date:
    a year argument 0..99 means 1900+year, the 0-based month argument is
    folded into the year, and the day is normalised into range. -/
def mkDateJS (y0 m0 d : Int) : CalDate :=
  let y1 := if 0 ≤ y0 ∧ y0 ≤ 99 then y0 + 1900 else y0
  let ym := 12 * y1 + m0
  let yy := ym.ediv 12
  let mm := ym.emod 12
  if d ≥ 1 then normFwd 12 yy (mm + 1) d else normBack 12 yy (mm + 1) d

/-- Decompose a string of shape digits{1,2} sep digits{1,2} sep digits{4} with
    sep a dash or slash — the anchored regex of excelService line 291 — into
    its three numbers. -/
def matchDMY (s : String) : Option (Int × Int × Int) :=
  let cs := s.data
  let a := cs.takeWhile Char.isDigit
  let r1 := cs.dropWhile Char.isDigit
  if a.length < 1 ∨ 2 < a.length then none
  else
    match r1 with
    | s1 :: r2 =>
      if s1 ≠ '-' ∧ s1 ≠ '/' then none
      else
        let b := r2.takeWhile Char.isDigit
        let r3 := r2.dropWhile Char.isDigit
        if b.length < 1 ∨ 2 < b.length then none
        else
          match r3 with
          | s2 :: r4 =>
            if s2 ≠ '-' ∧ s2 ≠ '/' then none
            else
              let c := r4.takeWhile Char.isDigit
              let r5 := r4.dropWhile Char.isDigit
              if c.length = 4 ∧ r5 = [] then
                some ((digitsToNat a : Int), (digitsToNat b : Int), (digitsToNat c : Int))
              else none
          | [] => none
    | [] => none

/-- Left-pad a non-negative integer to two digits. -/
def pad2 (n : Int) : String := if n < 10 then "0" ++ toString n else toString n

/-- Left-pad a non-negative integer to four digits (toISOString year field). -/
def pad4 (n : Int) : String :=
  if n < 10 then "000" ++ toString n
  else if n < 100 then "00" ++ toString n
  else if n < 1000 then "0" ++ toString n
  else toString n

/-- YYYY-MM-DD rendering of a calendar date. -/
def fmtDate (d : CalDate) : String :=
  pad4 d.year ++ "-" ++ pad2 d.month ++ "-" ++ pad2 d.day

/-- parseDate from excelService lines 289-310.  genParse abstracts the generic
    new Date(value) parse used after the explicit day-first pattern fails (its
    exact accepted language is environment defined); today is the local
    calendar date at call time, which the code reaches for falsy input or when
    every parse fails. -/
def parseDate (genParse : Cell → Option CalDate) (today : CalDate)
    (v : Option Cell) : String :=
  match v with
  | none => fmtDate today
  | some v =>
    if !jsTruthy v then fmtDate today
    else
      match v with
      | .str s =>
        match matchDMY s with
        | some (d, m, y) => fmtDate (mkDateJS y (m - 1) d)
        | none =>
          match genParse (.str s) with
          | some dd => fmtDate dd
          | none => fmtDate today
      | .date dd => fmtDate dd
      | .num q =>
        match genParse (.num q) with
        | some dd => fmtDate dd
        | none => fmtDate today

/-- Exact-key cell lookup, the bracket access row[key] used in matrix mode. -/
def rowGet (row : Row) (k : String) : Option Cell :=
  match row.find? (fun p => p.1 == k) with
  | some p => some p.2
  | none => none

/-- getVal from excelService lines 281-287: for each alias in order, look for
    a header equal to it case-insensitively and, as soon as one header
    matches, return that cell outright — populated or not. -/
def getVal (row : Row) (keys : List String) : Option Cell :=
  match keys with
  | [] => none
  | k :: ks =>
    match (row.map Prod.fst).find? (fun h => lowerS h == lowerS k) with
    | some fk => rowGet row fk
    | none => getVal row ks

/-- The fixed 12-color palette of excelService lines 20-24. -/
def palette : List String :=
  ["#EF4444", "#F97316", "#F59E0B", "#84CC16", "#10B981",
   "#06B6D4", "#3B82F6", "#6366F1", "#8B5CF6", "#D946EF",
   "#F43F5E", "#64748B"]

/-- Fresh opaque id number n — deterministic stand-in for uuidv4. -/
def freshId (n : Nat) : String := "uid-" ++ toString n

/-- Palette pick for the n-th draw — deterministic stand-in for the uniform
    random index of generateRandomColor. -/
def paletteColor (n : Nat) : String := (palette.get? (n % 12)).getD "#64748B"

/-- The mutable context one parseFile call threads through its rows: the
    uuid/color draw counter and the insertion-ordered session map
    newCategoriesCreatedMap (lower-cased token to created Category). -/
structure ImportState where
  fresh : Nat
  newCats : List (String × Category)
deriving DecidableEq, Repr

/-- Session-map lookup (JS Map.get keyed by the lower-cased token). -/
def lookupNC (m : List (String × Category)) (k : String) : Option Category :=
  match m.find? (fun p => p.1 == k) with
  | some p => some p.2
  | none => none

/-- Lookup in the oracle mapping object (aiMapping[key]). -/
def aiLookup (ai : List (String × String)) (k : String) : Option String :=
  match ai.find? (fun p => p.1 == k) with
  | some p => some p.2
  | none => none

/-- JS a || b on possibly-absent strings: an empty string is falsy. -/
def jsOrS : Option String → Option String → Option String
  | some s, b => if s = "" then b else some s
  | none, b => b

/-- JS truthiness of a possibly-absent string. -/
def jsTruthyS : Option String → Bool
  | some s => s ≠ ""
  | none => false

/-- The oracle id consulted at excelService line 128, in the code order:
    trimmed key first, then lower-cased-trimmed, then the raw input as given. -/
def mappedIdOf (ai : List (String × String)) (rawInput : String) : Option String :=
  let cleanRaw := trimS rawInput
  let lowerRaw := lowerS cleanRaw
  jsOrS (aiLookup ai cleanRaw) (jsOrS (aiLookup ai lowerRaw) (aiLookup ai rawInput))

/-- What resolveCategory hands back. -/
structure ResolveRes where
  id : String
  originalName : Option String
  isNew : Bool
deriving DecidableEq, Repr

/-- The successful oracle consult of lines 126-135: the mapped id counts only
    when it is truthy, is not the NEW sentinel, and names a category that is
    still present in existingCategories. -/
def aiHitOf (existing : List Category) (ai : List (String × String))
    (rawInput : String) : Option String :=
  match mappedIdOf ai rawInput with
  | some mid =>
    if mid ≠ "" ∧ mid ≠ "NEW" ∧ (existing.find? (fun c => c.id == mid)).isSome
    then some mid else none
  | none => none

/-- Priorities 2-4 of resolveCategory (lines 139-158): session map, strict
    case-insensitive name match, then minting a fresh category recorded under
    the lower-cased token. -/
def resolveLocal (existing : List Category) (cleanRaw lowerRaw : String)
    (st : ImportState) : ResolveRes × ImportState :=
  match lookupNC st.newCats lowerRaw with
  | some c => (⟨c.id, none, true⟩, st)
  | none =>
    match existing.find? (fun c => lowerS c.name == lowerRaw) with
    | some c => (⟨c.id, none, false⟩, st)
    | none =>
      let nm := toTitleCase cleanRaw
      let newCat : Category :=
        ⟨freshId st.fresh, if nm = "" then "Imported Misc" else nm,
          paletteColor st.fresh, true⟩
      (⟨newCat.id, none, true⟩,
        ⟨st.fresh + 1, st.newCats ++ [(lowerRaw, newCat)]⟩)

/-- resolveCategory from excelService lines 122-159: oracle mapping to a live
    existing id, else session map, else strict case-insensitive name match,
    else mint a new category and record it under the lower-cased token. -/
def resolveCategory (existing : List Category) (ai : List (String × String))
    (rawInput : String) (st : ImportState) : ResolveRes × ImportState :=
  let cleanRaw := trimS rawInput
  let lowerRaw := lowerS cleanRaw
  match aiHitOf existing ai rawInput with
  | some mid => (⟨mid, some cleanRaw, false⟩, st)
  | none => resolveLocal existing cleanRaw lowerRaw st

/-- Header alias lists used by the row transformer (excelService lines
    202-212 and 259). -/
def descKeys : List String := ["description", "desc", "details", "particulars", "narration"]

/-- Amount alias list of line 203. -/
def amountKeys : List String := ["amount", "amt", "cost", "price", "debit", "spending", "value"]

/-- Date alias list of line 212. -/
def dateValKeys : List String := ["date", "dt", "time", "when"]

/-- Category-column alias list of lines 70 and 220. -/
def catKeys : List String := ["category", "cat", "type", "expense type"]

/-- Notes alias list of line 259. -/
def notesKeys : List String := ["notes", "remarks", "comment"]

/-- Whole-header amount names of the detection regex at line 50. -/
def amountHeaderPat : List String :=
  ["amount", "amt", "price", "cost", "debit", "spending", "value"]

/-- Whole-header date names of the detection regex at line 51. -/
def dateHeaderPat : List String := ["date", "dt", "when", "day"]

/-- The generic payment-rail terms of line 77. -/
def genericTerms : List String :=
  ["debit", "credit", "dr", "cr", "withdrawal", "deposit", "transfer", "upi",
   "pos", "atm", "card", "imps", "neft", "rtgs", "mbk", "mobile", "net",
   "banking", "txn", "transaction", "expense", "payment"]

/-- JS Set.add: append the element unless already present (insertion order). -/
def setAdd (l : List String) (s : String) : List String :=
  if l.contains s then l else l ++ [s]

/-- Collect the distinct trimmed string forms of the truthy values the alias
    list finds across the rows, in first-appearance order (lines 69-72 for
    the category column, lines 100-103 for the description column). -/
def collectVals (rows : List Row) (keys : List String) : List String :=
  rows.foldl
    (fun acc row =>
      match getVal row keys with
      | some v => if jsTruthy v then setAdd acc (trimS (jsToString v)) else acc
      | none => acc)
    []

/-- The list-mode quality test of lines 79-95: fall back to the description
    column when no category value was collected, when strictly more than half
    of the distinct collected values are generic terms, or when fewer than 3
    distinct values face more than 5 rows.  The JS float comparison
    genericCount over totalItems against 0.5 is the exact rational one here. -/
def shouldUseDescription (rows : List Row) : Bool :=
  let items := collectVals rows catKeys
  if items.isEmpty then true
  else
    let total := items.length
    let generic := (items.filter (fun i => genericTerms.contains (lowerS i))).length
    (2 * generic > total) || (total < 3 && rows.length > 5)

/-- Matrix-mode category headers of lines 58-66: every header whose
    lower-cased trimmed form is nonempty, is not in the ignore list (which
    includes the date header), and does not contain the word total; the
    trimmed header text is what is collected. -/
def matrixHeaderSet (headers : List String) (dateKey : String) : List String :=
  let ignored : List String :=
    ["total", "final", "subtotal", "sum", "notes", "comments", "description",
      lowerS dateKey]
  headers.foldl
    (fun acc h =>
      let lowerH := trimS (lowerS h)
      if lowerH ≠ "" ∧ ¬ ignored.contains lowerH ∧ ¬ strIncludes lowerH "total"
      then setAdd acc (trimS h) else acc)
    []

/-- The description value of a list row with its default (line 202). -/
def descCell (row : Row) : Cell :=
  match getVal row descKeys with
  | some v => if jsTruthy v then v else .str "Imported Expense"
  | none => .str "Imported Expense"

/-- The notes value of a list row with its default (line 259), through the
    string coercion of the model. -/
def notesStr (row : Row) : String :=
  match getVal row notesKeys with
  | some v => if jsTruthy v then jsToString v else ""
  | none => ""

/-- One list-mode row (excelService lines 201-261): drop the row on a missing,
    empty, non-numeric or zero amount; otherwise parse the date, resolve the
    category from the chosen signal (the category column, or the description
    itself when implicitSrc is set), possibly append the raw token to the
    description, and emit one expense. -/
def listRow (genParse : Cell → Option CalDate) (today : CalDate)
    (existing : List Category) (ai : List (String × String))
    (implicitSrc : Bool) (row : Row) (st : ImportState) :
    Option Expense × ImportState :=
  let dVal := descCell row
  match getVal row amountKeys with
  | none => (none, st)
  | some av =>
    if av == .str "" then (none, st)
    else
      match parseFloatCell (some av) with
      | none => (none, st)
      | some q =>
        let amount := |q|
        if amount = 0 then (none, st)
        else
          let dateStr := parseDate genParse today (getVal row dateValKeys)
          let rawCat : Option Cell := if implicitSrc then some dVal else getVal row catKeys
          if jsTruthyO rawCat then
            let rawCatV := rawCat.getD (.str "")
            let res := resolveCategory existing ai (jsToString rawCatV) st
            let r := res.1
            let st1 := res.2
            let desc0 := jsToString dVal
            let desc :=
              if ¬ implicitSrc ∧ ¬ r.isNew ∧ jsTruthyS r.originalName then
                match existing.find? (fun c => c.id == r.id) with
                | some c =>
                  if c.name ≠ "" ∧
                      ¬ strIncludes (lowerS desc0) (lowerS (jsToString rawCatV))
                  then desc0 ++ " (" ++ jsToString rawCatV ++ ")"
                  else desc0
                | none => desc0
              else desc0
            (some ⟨freshId st1.fresh, amount, desc, r.id, dateStr, notesStr row⟩,
              ⟨st1.fresh + 1, st1.newCats⟩)
          else
            match existing.find? (fun c => c.name == "Others") with
            | some o =>
              (some ⟨freshId st.fresh, amount, jsToString dVal, o.id, dateStr,
                  notesStr row⟩,
                ⟨st.fresh + 1, st.newCats⟩)
            | none =>
              let res := resolveCategory existing ai "Others" st
              (some ⟨freshId res.2.fresh, amount, jsToString dVal, res.1.id,
                  dateStr, notesStr row⟩,
                ⟨res.2.fresh + 1, res.2.newCats⟩)

/-- The inner forEach of matrix mode (lines 171-197): one candidate expense
    per category header whose cell parses to a positive amount. -/
def matrixCells (existing : List Category) (ai : List (String × String))
    (dateStr : String) (row : Row) :
    List String → ImportState → List Expense × ImportState
  | [], st => ([], st)
  | h :: hs, st =>
    match matrixAmount (rowGet row h) with
    | some a =>
      if 0 < a then
        let res := resolveCategory existing ai h st
        let r := res.1
        let st1 := res.2
        let desc0 := toTitleCase h ++ " Expense"
        let desc :=
          if ¬ r.isNew ∧ jsTruthyS r.originalName then
            match existing.find? (fun c => c.id == r.id) with
            | some c =>
              if c.name ≠ "" ∧ lowerS c.name ≠ lowerS h
              then c.name ++ " Expense (" ++ h ++ ")"
              else desc0
            | none => desc0
          else desc0
        let e : Expense :=
          ⟨freshId st1.fresh, a, desc, r.id, dateStr, "Imported via Matrix"⟩
        let rest := matrixCells existing ai dateStr row hs ⟨st1.fresh + 1, st1.newCats⟩
        (e :: rest.1, rest.2)
      else matrixCells existing ai dateStr row hs st
    | none => matrixCells existing ai dateStr row hs st

/-- One matrix-mode row (lines 163-198): skipped when the date cell is absent,
    falsy, or reads as a summary row. -/
def matrixRow (genParse : Cell → Option CalDate) (today : CalDate)
    (existing : List Category) (ai : List (String × String))
    (dateKey : String) (uniqueCats : List String) (row : Row)
    (st : ImportState) : List Expense × ImportState :=
  match rowGet row dateKey with
  | none => ([], st)
  | some dv =>
    if ¬ jsTruthy dv then ([], st)
    else
      let sdv := lowerS (jsToString dv)
      if strIncludes sdv "total" || strIncludes sdv "final" then ([], st)
      else
        let dateStr := parseDate genParse today (some dv)
        matrixCells existing ai dateStr row uniqueCats st

/-- forEach over the rows in list mode, in order, threading the session. -/
def runList (genParse : Cell → Option CalDate) (today : CalDate)
    (existing : List Category) (ai : List (String × String))
    (implicitSrc : Bool) : List Row → ImportState → List Expense × ImportState
  | [], st => ([], st)
  | r :: rs, st =>
    let hd := listRow genParse today existing ai implicitSrc r st
    let tl := runList genParse today existing ai implicitSrc rs hd.2
    (match hd.1 with
      | some e => e :: tl.1
      | none => tl.1, tl.2)

/-- forEach over the rows in matrix mode. -/
def runMatrix (genParse : Cell → Option CalDate) (today : CalDate)
    (existing : List Category) (ai : List (String × String))
    (dateKey : String) (uniqueCats : List String) :
    List Row → ImportState → List Expense × ImportState
  | [], st => ([], st)
  | r :: rs, st =>
    let hd := matrixRow genParse today existing ai dateKey uniqueCats r st
    let tl := runMatrix genParse today existing ai dateKey uniqueCats rs hd.2
    (hd.1 ++ tl.1, tl.2)

/-- What one import call returns. -/
structure ImportResult where
  expenses : List Expense
  newCategories : List Category
deriving DecidableEq, Repr

/-- parseFile after the workbook decode (lines 41-267), as a function of the
    decoded rows: header and mode detection, category-signal selection, row
    transformation, and the session map flushed into newCategories in
    insertion order.  The oracle reply ai is a parameter: the try/catch of
    lines 111-119 turns every oracle failure into the empty mapping, so an
    arbitrary (possibly empty) mapping covers every oracle outcome. -/
def parseFileRows (genParse : Cell → Option CalDate) (today : CalDate)
    (ai : List (String × String)) (existing : List Category)
    (rawData : List Row) : ImportResult :=
  match rawData with
  | [] => ⟨[], []⟩
  | r0 :: _ =>
    let headers := r0.map Prod.fst
    let amountKey := headers.find? (fun h => amountHeaderPat.contains (lowerS h))
    let dateKey := headers.find? (fun h => dateHeaderPat.contains (lowerS h))
    if dateKey.isSome ∧ amountKey.isNone ∧ headers.length > 2 then
      let dk := dateKey.getD ""
      let uniqueCats :=
        (matrixHeaderSet headers dk).filter (fun s => s ≠ "" ∧ 1 < s.length)
      let out := runMatrix genParse today existing ai dk uniqueCats rawData ⟨0, []⟩
      ⟨out.1, out.2.newCats.map Prod.snd⟩
    else
      let implicitSrc := shouldUseDescription rawData
      let out := runList genParse today existing ai implicitSrc rawData ⟨0, []⟩
      ⟨out.1, out.2.newCats.map Prod.snd⟩

/- Definitions written from the wording of the specification, kept clearly
   apart from the source translation above: each exists to be compared with
   the corresponding source function. -/

/-- Following the wording of claim C5: the value of the first alias header
    that is present AND populated, skipping present-but-empty cells. -/
def getValPopulated (row : Row) (keys : List String) : Option Cell :=
  match keys with
  | [] => none
  | k :: ks =>
    match (row.map Prod.fst).find? (fun h => lowerS h == lowerS k) with
    | some fk =>
      match rowGet row fk with
      | some v => if jsTruthy v then some v else getValPopulated row ks
      | none => getValPopulated row ks
    | none => getValPopulated row ks

/-- The key the source actually consults first for an alias list: the first
    alias with a case-insensitive header match. -/
def firstPresentKey (row : Row) (keys : List String) : Option String :=
  keys.findSome? (fun k => (row.map Prod.fst).find? (fun h => lowerS h == lowerS k))

/-- Following the wording of claim C8: consult the oracle map for the raw
    token as given first, then trimmed, then lower-cased. -/
def specMappedId (ai : List (String × String)) (rawInput : String) : Option String :=
  jsOrS (aiLookup ai rawInput)
    (jsOrS (aiLookup ai (trimS rawInput)) (aiLookup ai (lowerS rawInput)))

/-- Following the wording of claim C4: whether any header of the sheet is a
    category-column alias. -/
def catColumnExists (rows : List Row) : Bool :=
  rows.any (fun row => (row.map Prod.fst).any (fun h => catKeys.contains (lowerS h)))

/-- Following the wording of claim C4: the distinct non-empty trimmed values
    of the category column. -/
def specDistinctCatVals (rows : List Row) : List String :=
  ((rows.filterMap
      (fun row =>
        (getVal row catKeys).bind
          (fun v => if jsTruthy v then some (trimS (jsToString v)) else none))).foldl
    setAdd []).filter (fun s => s ≠ "")

/-- Following the wording of claim C4: reject the category column iff no such
    column exists, or the generic ratio among the distinct non-empty trimmed
    values exceeds one half, or fewer than 3 distinct values face more than
    5 rows. -/
def specRejectCatColumn (rows : List Row) : Bool :=
  (!catColumnExists rows) ||
    (let vals := specDistinctCatVals rows
     let g := (vals.filter (fun i => genericTerms.contains (lowerS i))).length
     (2 * g > vals.length) || (vals.length < 3 && rows.length > 5))

/-- The distinct-value collection of the source, rebuilt as one pass over the
    extracted value list (used to restate the detection test independently of
    the row-at-a-time fold of collectVals). -/
def specCollect (rows : List Row) (keys : List String) : List String :=
  (rows.filterMap
      (fun row =>
        (getVal row keys).bind
          (fun v => if jsTruthy v then some (trimS (jsToString v)) else none))).foldl
    setAdd []

/-- The states one import session can step through from a given state:
    closed under further resolveCategory calls (with the empty oracle map the
    surrounding claim assumes) and under draws of the uuid counter for
    expense ids. -/
inductive Resolves (existing : List Category) : ImportState → ImportState → Prop
  | refl (st : ImportState) : Resolves existing st st
  | step {st st' : ImportState} (t : String) (h : Resolves existing st st') :
      Resolves existing st ((resolveCategory existing [] t st').2)
  | bump {st st' : ImportState} (h : Resolves existing st st') :
      Resolves existing st ⟨st'.fresh + 1, st'.newCats⟩

/- Concrete fixtures used by counterexamples and witnesses. -/

/-- A generic-date parser that accepts nothing (any fixed one would do for
    the facts below, which never reach it). -/
def noGen : Cell → Option CalDate := fun _ => none

/-- A fixed current date for the fixtures. -/
def day0 : CalDate := ⟨2025, 10, 12⟩

/-- C4 counterexample sheet: a category column exists but every cell of it is
    empty, and there are only two rows. -/
def c4CexRows : List Row :=
  [[("Category", .str ""), ("Amount", .str "5"), ("Description", .str "a")],
   [("Category", .str ""), ("Amount", .str "6"), ("Description", .str "b")]]

/-- The Debit/Credit quality-fallback sheet of claim C4: ten rows whose
    category column only ever holds Debit or Credit. -/
def dcRows : List Row :=
  List.replicate 5
      [("Category", Cell.str "Debit"), ("Amount", Cell.str "5"),
        ("Description", Cell.str "kirana")] ++
    List.replicate 5
      [("Category", Cell.str "Credit"), ("Amount", Cell.str "7"),
        ("Description", Cell.str "swiggy")]

/-- C5 counterexample row: the first amount alias is present but empty while
    a later alias holds 500. -/
def c5Row : Row := [("Amount", .str ""), ("Cost", .num 500), ("Description", .str "x")]

/-- C8 counterexample categories. -/
def c8Cats : List Category :=
  [⟨"c1", "Groceries", "#111111", false⟩, ⟨"c2", "Food", "#222222", false⟩]

/-- C8 counterexample oracle map: one binding for the token as given and a
    different one for its trimmed form. -/
def c8Ai : List (String × String) := [(" Food", "c1"), ("Food", "c2")]

/-- C2 counterexample categories: the oracle can send one case variant to c1
    while the strict name match sends the other to c9. -/
def c2Cats : List Category :=
  [⟨"c1", "Groceries", "#111111", false⟩, ⟨"c9", "Food", "#222222", false⟩]

/-- C9 counterexample sheet: an explicit category token food on a row whose
    description is lunch. -/
def c9Rows : List Row :=
  [[("Description", .str "lunch"), ("Amount", .str "50"), ("Category", .str "food")]]

/-- C9 counterexample categories: the oracle target is named Food, equal to
    the token up to case. -/
def c9Cats : List Category := [⟨"c1", "Food", "#ffffff", false⟩]

/-- C10 list-mode sheet with a comma thousands separator in the amount. -/
def c10ListRows : List Row :=
  [[("Amount", .str "1,200"), ("Description", .str "coffee")]]

/-- C10 matrix-mode sheet with the same separator inside a category cell. -/
def c10MatrixRows : List Row :=
  [[("Date", .str "05-03-2024"), ("Food", .str "1,200"), ("Travel", .str "")]]

/-- One-row list-mode sheet for the C1 witness. -/
def c1Rows : List Row := [[("Amount", .num 5), ("Description", .str "tea")]]

/-- The amount conditions under which a list-mode row is dropped (claim C6):
    the amount value is absent (no alias header, or the empty cell the sheet
    reader substitutes), non-numeric, or parses to exactly 0. -/
def amountBad (row : Row) : Prop :=
  getVal row amountKeys = none ∨ getVal row amountKeys = some (.str "") ∨
  (∃ v, getVal row amountKeys = some v ∧ parseFloatCell (some v) = none) ∨
  (∃ v, getVal row amountKeys = some v ∧ parseFloatCell (some v) = some 0)

/-- Row with a negative amount for the C6 witness. -/
def c6Row : Row := [("Amount", .num (-200)), ("Description", .str "swiggy order")]

/- Helper lemmas. -/

theorem find?_append_some {α} {p : α → Bool} {l₁ l₂ : List α} {a : α}
    (h : l₁.find? p = some a) : (l₁ ++ l₂).find? p = some a := by
  induction l₁ with
  | nil => simp [List.find?] at h
  | cons x xs ih =>
    cases hx : p x with
    | true =>
      rw [List.find?_cons_of_pos _ hx] at h
      rw [List.cons_append, List.find?_cons_of_pos _ hx]
      exact h
    | false =>
      rw [List.find?_cons_of_neg _ (by simp [hx])] at h
      rw [List.cons_append, List.find?_cons_of_neg _ (by simp [hx])]
      exact ih h

theorem find?_append_none {α} {p : α → Bool} {l₁ l₂ : List α}
    (h : l₁.find? p = none) : (l₁ ++ l₂).find? p = l₂.find? p := by
  induction l₁ with
  | nil => simp
  | cons x xs ih =>
    cases hx : p x with
    | true => rw [List.find?_cons_of_pos _ hx] at h; cases h
    | false =>
      rw [List.find?_cons_of_neg _ (by simp [hx])] at h
      rw [List.cons_append, List.find?_cons_of_neg _ (by simp [hx])]
      exact ih h

theorem lookupNC_mem {m : List (String × Category)} {k : String} {c : Category}
    (h : lookupNC m k = some c) : c.id ∈ m.map (fun p => p.2.id) := by
  unfold lookupNC at h
  cases hf : m.find? (fun p => p.1 == k) with
  | none => rw [hf] at h; cases h
  | some p =>
    rw [hf] at h
    cases h
    exact List.mem_map_of_mem _ (List.mem_of_find?_eq_some hf)

theorem find?_catid_mem {existing : List Category} {mid : String} {c : Category}
    (h : existing.find? (fun c => c.id == mid) = some c) :
    mid ∈ existing.map Category.id := by
  have hp := List.find?_some h
  have hm : c ∈ existing := List.mem_of_find?_eq_some h
  have hid : c.id = mid := by simpa using hp
  exact hid ▸ List.mem_map_of_mem _ hm

theorem lookupNC_append_some {m : List (String × Category)} {k : String}
    {c : Category} (ext : List (String × Category))
    (h : lookupNC m k = some c) : lookupNC (m ++ ext) k = some c := by
  unfold lookupNC at h ⊢
  cases hf : m.find? (fun p => p.1 == k) with
  | none => rw [hf] at h; simp at h
  | some p => rw [find?_append_some hf]; rw [hf] at h; exact h

/- Lemmas about the resolver. -/

theorem resolveLocal_newCats (existing : List Category) (cleanRaw lowerRaw : String)
    (st : ImportState) :
    ∃ ext, (resolveLocal existing cleanRaw lowerRaw st).2.newCats = st.newCats ++ ext := by
  unfold resolveLocal
  cases hl : lookupNC st.newCats lowerRaw with
  | some c => exact ⟨[], (List.append_nil _).symm⟩
  | none =>
    cases hf : existing.find? (fun c => lowerS c.name == lowerRaw) with
    | some c => exact ⟨[], (List.append_nil _).symm⟩
    | none => exact ⟨[_], rfl⟩

theorem resolveCategory_newCats (existing : List Category) (ai : List (String × String))
    (rawInput : String) (st : ImportState) :
    ∃ ext, (resolveCategory existing ai rawInput st).2.newCats = st.newCats ++ ext := by
  unfold resolveCategory
  cases ha : aiHitOf existing ai rawInput with
  | some mid => exact ⟨[], (List.append_nil _).symm⟩
  | none => exact resolveLocal_newCats existing _ _ st

theorem resolveLocal_id_mem (existing : List Category) (cleanRaw lowerRaw : String)
    (st : ImportState) :
    (resolveLocal existing cleanRaw lowerRaw st).1.id ∈ existing.map Category.id ∨
    (resolveLocal existing cleanRaw lowerRaw st).1.id ∈
      (resolveLocal existing cleanRaw lowerRaw st).2.newCats.map (fun p => p.2.id) := by
  unfold resolveLocal
  cases hl : lookupNC st.newCats lowerRaw with
  | some c => exact Or.inr (lookupNC_mem hl)
  | none =>
    cases hf : existing.find? (fun c => lowerS c.name == lowerRaw) with
    | some c => exact Or.inl (List.mem_map_of_mem _ (List.mem_of_find?_eq_some hf))
    | none =>
      right
      simp

theorem aiHitOf_mem {existing : List Category} {ai : List (String × String)}
    {rawInput mid : String} (h : aiHitOf existing ai rawInput = some mid) :
    mid ∈ existing.map Category.id := by
  unfold aiHitOf at h
  cases hm : mappedIdOf ai rawInput with
  | none => rw [hm] at h; cases h
  | some mid' =>
    rw [hm] at h
    dsimp only at h
    by_cases hc : mid' ≠ "" ∧ mid' ≠ "NEW" ∧ (existing.find? (fun c => c.id == mid')).isSome
    · rw [if_pos hc] at h
      cases h
      obtain ⟨c, hc'⟩ := Option.isSome_iff_exists.mp hc.2.2
      exact find?_catid_mem hc'
    · rw [if_neg hc] at h; cases h

theorem resolveCategory_id_mem (existing : List Category) (ai : List (String × String))
    (rawInput : String) (st : ImportState) :
    (resolveCategory existing ai rawInput st).1.id ∈ existing.map Category.id ∨
    (resolveCategory existing ai rawInput st).1.id ∈
      (resolveCategory existing ai rawInput st).2.newCats.map (fun p => p.2.id) := by
  unfold resolveCategory
  cases ha : aiHitOf existing ai rawInput with
  | some mid => exact Or.inl (aiHitOf_mem ha)
  | none => exact resolveLocal_id_mem existing _ _ st

theorem mem_map_append {α β} {f : α → β} {b : β} {l : List α} (ext : List α)
    (h : b ∈ l.map f) : b ∈ (l ++ ext).map f := by
  rw [List.map_append]
  exact List.mem_append_left _ h

theorem listRow_newCats (genParse : Cell → Option CalDate) (today : CalDate)
    (existing : List Category) (ai : List (String × String))
    (implicitSrc : Bool) (row : Row) (st : ImportState) :
    ∃ ext, (listRow genParse today existing ai implicitSrc row st).2.newCats = st.newCats ++ ext := by
  unfold listRow
  dsimp only
  repeat' split
  all_goals
    first
      | exact ⟨[], (List.append_nil _).symm⟩
      | exact resolveCategory_newCats existing ai _ st

theorem listRow_catId (genParse : Cell → Option CalDate) (today : CalDate)
    (existing : List Category) (ai : List (String × String))
    (implicitSrc : Bool) (row : Row) (st : ImportState) :
    ∀ e, (listRow genParse today existing ai implicitSrc row st).1 = some e →
      e.categoryId ∈ existing.map Category.id ∨
      e.categoryId ∈ (listRow genParse today existing ai implicitSrc row st).2.newCats.map (fun p => p.2.id) := by
  unfold listRow
  dsimp only
  repeat' split
  all_goals intro e he
  all_goals
    first
      | exact Option.noConfusion he
      | (cases he; exact resolveCategory_id_mem existing ai _ st)
      | (cases he; exact Or.inl (List.mem_map_of_mem _ (List.mem_of_find?_eq_some (by assumption))))

theorem runList_cats (genParse : Cell → Option CalDate) (today : CalDate)
    (existing : List Category) (ai : List (String × String)) (implicitSrc : Bool) :
    ∀ (rows : List Row) (st : ImportState),
      (∃ ext, (runList genParse today existing ai implicitSrc rows st).2.newCats = st.newCats ++ ext) ∧
      ∀ e ∈ (runList genParse today existing ai implicitSrc rows st).1,
        e.categoryId ∈ existing.map Category.id ∨
        e.categoryId ∈ (runList genParse today existing ai implicitSrc rows st).2.newCats.map (fun p => p.2.id) := by
  intro rows
  induction rows with
  | nil =>
    intro st
    exact ⟨⟨[], by simp [runList]⟩, by intro e he; simp [runList] at he⟩
  | cons r rs ih =>
    intro st
    have hrowm := listRow_newCats genParse today existing ai implicitSrc r st
    have hrowc := listRow_catId genParse today existing ai implicitSrc r st
    have iht := ih (listRow genParse today existing ai implicitSrc r st).2
    constructor
    · obtain ⟨e1, h1⟩ := hrowm
      obtain ⟨e2, h2⟩ := iht.1
      refine ⟨e1 ++ e2, ?_⟩
      simp only [runList]
      rw [h2, h1, List.append_assoc]
    · intro e he
      simp only [runList] at he ⊢
      cases hh : (listRow genParse today existing ai implicitSrc r st).1 with
      | some e' =>
        rw [hh] at he
        rcases List.mem_cons.mp he with rfl | hmem
        · rcases hrowc e hh with h1 | h2
          · exact Or.inl h1
          · right
            obtain ⟨e2, hext⟩ := iht.1
            rw [hext]
            exact mem_map_append e2 h2
        · exact iht.2 e hmem
      | none =>
        rw [hh] at he
        exact iht.2 e he

theorem matrixCells_cats (existing : List Category) (ai : List (String × String))
    (dateStr : String) (row : Row) :
    ∀ (hs : List String) (st : ImportState),
      (∃ ext, (matrixCells existing ai dateStr row hs st).2.newCats = st.newCats ++ ext) ∧
      ∀ e ∈ (matrixCells existing ai dateStr row hs st).1,
        e.categoryId ∈ existing.map Category.id ∨
        e.categoryId ∈ (matrixCells existing ai dateStr row hs st).2.newCats.map (fun p => p.2.id) := by
  intro hs
  induction hs with
  | nil =>
    intro st
    exact ⟨⟨[], by simp [matrixCells]⟩, by intro e he; simp [matrixCells] at he⟩
  | cons h hs ih =>
    intro st
    simp only [matrixCells]
    cases ham : matrixAmount (rowGet row h) with
    | none => exact ih st
    | some a =>
      dsimp only
      by_cases hpos : 0 < a
      · rw [if_pos hpos]
        have hres := resolveCategory_newCats existing ai h st
        have hmem := resolveCategory_id_mem existing ai h st
        have iht := ih ⟨(resolveCategory existing ai h st).2.fresh + 1,
          (resolveCategory existing ai h st).2.newCats⟩
        constructor
        · obtain ⟨e1, h1⟩ := hres
          obtain ⟨e2, h2⟩ := iht.1
          refine ⟨e1 ++ e2, ?_⟩
          rw [h2]
          dsimp only
          rw [h1, List.append_assoc]
        · intro e he
          rcases List.mem_cons.mp he with rfl | hm
          · rcases hmem with h1 | h2
            · exact Or.inl h1
            · right
              obtain ⟨e2, hext⟩ := iht.1
              rw [hext]
              exact mem_map_append e2 h2
          · exact iht.2 e hm
      · rw [if_neg hpos]
        exact ih st

theorem matrixRow_cats (genParse : Cell → Option CalDate) (today : CalDate)
    (existing : List Category) (ai : List (String × String))
    (dateKey : String) (uniqueCats : List String) (row : Row) (st : ImportState) :
    (∃ ext, (matrixRow genParse today existing ai dateKey uniqueCats row st).2.newCats = st.newCats ++ ext) ∧
    ∀ e ∈ (matrixRow genParse today existing ai dateKey uniqueCats row st).1,
      e.categoryId ∈ existing.map Category.id ∨
      e.categoryId ∈ (matrixRow genParse today existing ai dateKey uniqueCats row st).2.newCats.map (fun p => p.2.id) := by
  unfold matrixRow
  dsimp only
  repeat' split
  all_goals
    first
      | exact ⟨⟨[], (List.append_nil _).symm⟩, by intro e he; simp at he⟩
      | exact matrixCells_cats existing ai _ row uniqueCats st

theorem runMatrix_cats (genParse : Cell → Option CalDate) (today : CalDate)
    (existing : List Category) (ai : List (String × String))
    (dateKey : String) (uniqueCats : List String) :
    ∀ (rows : List Row) (st : ImportState),
      (∃ ext, (runMatrix genParse today existing ai dateKey uniqueCats rows st).2.newCats = st.newCats ++ ext) ∧
      ∀ e ∈ (runMatrix genParse today existing ai dateKey uniqueCats rows st).1,
        e.categoryId ∈ existing.map Category.id ∨
        e.categoryId ∈ (runMatrix genParse today existing ai dateKey uniqueCats rows st).2.newCats.map (fun p => p.2.id) := by
  intro rows
  induction rows with
  | nil =>
    intro st
    exact ⟨⟨[], by simp [runMatrix]⟩, by intro e he; simp [runMatrix] at he⟩
  | cons r rs ih =>
    intro st
    have hrow := matrixRow_cats genParse today existing ai dateKey uniqueCats r st
    have iht := ih (matrixRow genParse today existing ai dateKey uniqueCats r st).2
    constructor
    · obtain ⟨e1, h1⟩ := hrow.1
      obtain ⟨e2, h2⟩ := iht.1
      refine ⟨e1 ++ e2, ?_⟩
      simp only [runMatrix]
      rw [h2, h1, List.append_assoc]
    · intro e he
      simp only [runMatrix] at he ⊢
      rcases List.mem_append.mp he with hm | hm
      · rcases hrow.2 e hm with h1 | h2
        · exact Or.inl h1
        · right
          obtain ⟨e2, hext⟩ := iht.1
          rw [hext]
          exact mem_map_append e2 h2
      · exact iht.2 e hm

/-- Claim C1: for every import call, every expense in the returned result
    references a categoryId that is either the id of a caller-supplied
    existing category or the id of a category in the returned newCategories
    sequence.  This holds in both list and matrix mode, for every oracle
    reply, because every id an expense ever receives comes from the oracle
    branch (checked against existingCategories), from the Others fallback
    (an existing category or a resolver call), or from the session map whose
    final contents are exactly the returned newCategories. -/
theorem claim_C1 (genParse : Cell → Option CalDate) (today : CalDate)
    (ai : List (String × String)) (existing : List Category) (rawData : List Row) :
    ∀ e ∈ (parseFileRows genParse today ai existing rawData).expenses,
      e.categoryId ∈ existing.map Category.id ∨
      e.categoryId ∈ (parseFileRows genParse today ai existing rawData).newCategories.map Category.id := by
  unfold parseFileRows
  cases rawData with
  | nil => intro e he; simp at he
  | cons r0 rest =>
    dsimp only
    split
    · intro e he
      rcases (runMatrix_cats genParse today existing ai _ _ (r0 :: rest) ⟨0, []⟩).2 e he with h1 | h2
      · exact Or.inl h1
      · right
        simpa [List.map_map, Function.comp] using h2
    · intro e he
      rcases (runList_cats genParse today existing ai _ (r0 :: rest) ⟨0, []⟩).2 e he with h1 | h2
      · exact Or.inl h1
      · right
        simpa [List.map_map, Function.comp] using h2

/-- Witness for C1: the single expense the one-row fixture produces indeed
    points at the one freshly created category. -/
theorem claim_C1_witness :
    (⟨"uid-1", 5, "tea", "uid-0", "2025-10-12", ""⟩ : Expense).categoryId ∈
        List.map Category.id ([] : List Category) ∨
    (⟨"uid-1", 5, "tea", "uid-0", "2025-10-12", ""⟩ : Expense).categoryId ∈
      (parseFileRows noGen day0 [] [] c1Rows).newCategories.map Category.id :=
  claim_C1 noGen day0 [] [] c1Rows ⟨"uid-1", 5, "tea", "uid-0", "2025-10-12", ""⟩
    (by with_unfolding_all decide)

theorem resolveCategory_nil_ai (existing : List Category) (t : String) (st : ImportState) :
    resolveCategory existing [] t st = resolveLocal existing (trimS t) (lowerS (trimS t)) st := rfl

theorem resolveLocal_eq_session {st : ImportState} {lowerRaw : String} {c : Category}
    (existing : List Category) (cleanRaw : String)
    (hl : lookupNC st.newCats lowerRaw = some c) :
    resolveLocal existing cleanRaw lowerRaw st = (⟨c.id, none, true⟩, st) := by
  unfold resolveLocal
  rw [hl]

theorem resolveLocal_eq_strict {existing : List Category} {st : ImportState}
    {lowerRaw : String} {c : Category} (cleanRaw : String)
    (hl : lookupNC st.newCats lowerRaw = none)
    (hf : existing.find? (fun c => lowerS c.name == lowerRaw) = some c) :
    resolveLocal existing cleanRaw lowerRaw st = (⟨c.id, none, false⟩, st) := by
  unfold resolveLocal
  rw [hl, hf]

theorem resolveLocal_eq_create {existing : List Category} {st : ImportState}
    {lowerRaw : String} (cleanRaw : String)
    (hl : lookupNC st.newCats lowerRaw = none)
    (hf : existing.find? (fun c => lowerS c.name == lowerRaw) = none) :
    resolveLocal existing cleanRaw lowerRaw st =
      (⟨freshId st.fresh, none, true⟩,
        ⟨st.fresh + 1,
          st.newCats ++
            [(lowerRaw,
              ⟨freshId st.fresh,
                if toTitleCase cleanRaw = "" then "Imported Misc" else toTitleCase cleanRaw,
                paletteColor st.fresh, true⟩)]⟩) := by
  unfold resolveLocal
  rw [hl, hf]

theorem lookupNC_none_find? {m : List (String × Category)} {k : String}
    (h : lookupNC m k = none) : m.find? (fun p => p.1 == k) = none := by
  unfold lookupNC at h
  cases hf : m.find? (fun p => p.1 == k) with
  | none => rfl
  | some p => rw [hf] at h; cases h

theorem resolveLocal_lookup_some {st : ImportState} {k : String} {c : Category}
    (existing : List Category) (cleanRaw lowerRaw : String)
    (h : lookupNC st.newCats k = some c) :
    lookupNC (resolveLocal existing cleanRaw lowerRaw st).2.newCats k = some c := by
  unfold resolveLocal
  cases hl : lookupNC st.newCats lowerRaw with
  | some c' => exact h
  | none =>
    cases hf : existing.find? (fun c => lowerS c.name == lowerRaw) with
    | some c' => exact h
    | none => exact lookupNC_append_some _ h

theorem resolveLocal_lookup_none_strict {existing : List Category} {st : ImportState}
    {k : String} (cleanRaw lowerRaw : String)
    (hn : lookupNC st.newCats k = none)
    (hs : (existing.find? (fun c => lowerS c.name == k)).isSome) :
    lookupNC (resolveLocal existing cleanRaw lowerRaw st).2.newCats k = none := by
  unfold resolveLocal
  cases hl : lookupNC st.newCats lowerRaw with
  | some c' => exact hn
  | none =>
    cases hf : existing.find? (fun c => lowerS c.name == lowerRaw) with
    | some c' => exact hn
    | none =>
      by_cases hk : lowerRaw = k
      · subst hk
        rw [hf] at hs
        cases hs
      · dsimp only
        unfold lookupNC
        rw [find?_append_none (lookupNC_none_find? hn)]
        have hb : (lowerRaw == k) = false := beq_eq_false_iff_ne.mpr hk
        simp [List.find?, hb]

theorem Resolves_lookup_some {existing : List Category} {st st' : ImportState}
    {k : String} {c : Category} (hr : Resolves existing st st')
    (h : lookupNC st.newCats k = some c) : lookupNC st'.newCats k = some c := by
  induction hr with
  | refl => exact h
  | step t hr ih =>
    rw [resolveCategory_nil_ai]
    exact resolveLocal_lookup_some existing _ _ ih
  | bump hr ih => exact ih

theorem Resolves_lookup_none_strict {existing : List Category} {st st' : ImportState}
    {k : String} (hr : Resolves existing st st')
    (hs : (existing.find? (fun c => lowerS c.name == k)).isSome)
    (h : lookupNC st.newCats k = none) : lookupNC st'.newCats k = none := by
  induction hr with
  | refl => exact h
  | step t hr ih =>
    rw [resolveCategory_nil_ai]
    exact resolveLocal_lookup_none_strict _ _ ih hs
  | bump hr ih => exact ih

/-- Counterexample to C2 as stated: with an oracle mapping for the exact text
    Food to the existing Groceries category, the token Food resolves through
    the oracle to c1, while its case variant FOOD misses the oracle map and
    strict-name-matches the existing category named Food, c9 — two different
    ids for tokens that are equal case-insensitively. -/
theorem claim_C2_cex :
    lowerS "Food" = lowerS "FOOD" ∧
    (resolveCategory c2Cats [("Food", "c1")] "Food" ⟨0, []⟩).1.id = "c1" ∧
    (resolveCategory c2Cats [("Food", "c1")] "FOOD"
        (resolveCategory c2Cats [("Food", "c1")] "Food" ⟨0, []⟩).2).1.id = "c9" := by
  decide

/-- Claim C2 as amended: when the oracle mapping is empty (the case the memo
    is for — resolution by session map, strict name match or creation),
    resolving two raw tokens with the same trimmed lower-cased form — in
    particular the same token twice — always yields the same category id, no
    matter which other resolver calls and uuid draws happen in between.  As
    stated the claim fails when the oracle maps the two case variants
    differently (claim_C2_cex). -/
theorem claim_C2 (existing : List Category) (t₁ t₂ : String) (st st₂ : ImportState)
    (hlow : lowerS (trimS t₁) = lowerS (trimS t₂))
    (hr : Resolves existing (resolveCategory existing [] t₁ st).2 st₂) :
    (resolveCategory existing [] t₁ st).1.id = (resolveCategory existing [] t₂ st₂).1.id := by
  rw [resolveCategory_nil_ai] at hr ⊢
  rw [resolveCategory_nil_ai, ← hlow]
  cases hl : lookupNC st.newCats (lowerS (trimS t₁)) with
  | some c =>
    rw [resolveLocal_eq_session existing (trimS t₁) hl] at hr ⊢
    have h2 := Resolves_lookup_some hr hl
    rw [resolveLocal_eq_session existing (trimS t₂) h2]
  | none =>
    cases hf : existing.find? (fun c => lowerS c.name == lowerS (trimS t₁)) with
    | some c =>
      rw [resolveLocal_eq_strict (trimS t₁) hl hf] at hr ⊢
      have h2 := Resolves_lookup_none_strict hr (by rw [hf]; rfl) hl
      rw [resolveLocal_eq_strict (trimS t₂) h2 hf]
    | none =>
      rw [resolveLocal_eq_create (trimS t₁) hl hf] at hr ⊢
      have h1 : lookupNC
          (st.newCats ++
            [(lowerS (trimS t₁),
              ⟨freshId st.fresh,
                if toTitleCase (trimS t₁) = "" then "Imported Misc" else toTitleCase (trimS t₁),
                paletteColor st.fresh, true⟩)])
          (lowerS (trimS t₁)) = some
            ⟨freshId st.fresh,
              if toTitleCase (trimS t₁) = "" then "Imported Misc" else toTitleCase (trimS t₁),
              paletteColor st.fresh, true⟩ := by
        unfold lookupNC
        rw [find?_append_none (lookupNC_none_find? hl)]
        simp [List.find?]
      have h2 := Resolves_lookup_some hr h1
      rw [resolveLocal_eq_session existing (trimS t₂) h2]

/-- Witness for the amended C2: with no oracle and nothing resolved in
    between, Food and FOOD indeed land on the same id. -/
theorem claim_C2_witness :
    (resolveCategory ([] : List Category) [] "Food" ⟨0, []⟩).1.id =
      (resolveCategory ([] : List Category) [] "FOOD"
        (resolveCategory ([] : List Category) [] "Food" ⟨0, []⟩).2).1.id :=
  claim_C2 [] "Food" "FOOD" ⟨0, []⟩ _ (by decide) (Resolves.refl _)

/-- Claim C3: with the oracle mapping empty (which is what any oracle failure
    is turned into by the try/catch of lines 111-119), every resolver call
    still returns a valid category id — the id of an existing category whose
    name equals the trimmed token case-insensitively, or the id of a category
    sitting in the session map (that is, a newly created one) after the call.
    The import itself can never fail at this stage: the resolver and the row
    transformers are total functions. -/
theorem claim_C3 (existing : List Category) (t : String) (st : ImportState)
    (r : ResolveRes) (st' : ImportState)
    (h : resolveCategory existing [] t st = (r, st')) :
    (∃ c ∈ existing, lowerS c.name = lowerS (trimS t) ∧ r.id = c.id) ∨
    r.id ∈ st'.newCats.map (fun p => p.2.id) := by
  rw [resolveCategory_nil_ai] at h
  cases hl : lookupNC st.newCats (lowerS (trimS t)) with
  | some c =>
    rw [resolveLocal_eq_session existing (trimS t) hl] at h
    cases h
    exact Or.inr (lookupNC_mem hl)
  | none =>
    cases hf : existing.find? (fun c => lowerS c.name == lowerS (trimS t)) with
    | some c =>
      rw [resolveLocal_eq_strict (trimS t) hl hf] at h
      cases h
      refine Or.inl ⟨c, List.mem_of_find?_eq_some hf, ?_, rfl⟩
      simpa using List.find?_some hf
    | none =>
      rw [resolveLocal_eq_create (trimS t) hl hf] at h
      cases h
      right
      simp

/-- Witness for C3: a token with no matching existing category resolves to
    the freshly minted category now in the session map. -/
theorem claim_C3_witness :
    (∃ c ∈ ([] : List Category), lowerS c.name = lowerS (trimS "snacks") ∧
        (resolveCategory [] [] "snacks" ⟨0, []⟩).1.id = c.id) ∨
    (resolveCategory [] [] "snacks" ⟨0, []⟩).1.id ∈
      (resolveCategory [] [] "snacks" ⟨0, []⟩).2.newCats.map (fun p => p.2.id) :=
  claim_C3 [] "snacks" ⟨0, []⟩ _ _ rfl

theorem collect_fusion (keys : List String) :
    ∀ (rows : List Row) (acc : List String),
      rows.foldl
        (fun acc row =>
          match getVal row keys with
          | some v => if jsTruthy v then setAdd acc (trimS (jsToString v)) else acc
          | none => acc) acc =
      (rows.filterMap
          (fun row =>
            (getVal row keys).bind
              (fun v => if jsTruthy v then some (trimS (jsToString v)) else none))).foldl
        setAdd acc := by
  intro rows
  induction rows with
  | nil => intro acc; rfl
  | cons r rs ih =>
    intro acc
    rw [List.foldl_cons, List.filterMap_cons]
    cases hg : getVal r keys with
    | none => exact ih acc
    | some v =>
      dsimp only [Option.bind]
      cases ht : jsTruthy v with
      | true => exact ih (setAdd acc (trimS (jsToString v)))
      | false => exact ih acc

theorem collectVals_eq_spec (rows : List Row) (keys : List String) :
    collectVals rows keys = specCollect rows keys :=
  collect_fusion keys rows []

/-- Counterexample to C4 as stated: on a two-row sheet whose category column
    exists but holds only empty cells, the code rejects the column (the
    collected set is empty), while the claim predicts it is kept — the column
    exists, no distinct non-empty value is generic, and 2 rows are not more
    than 5. -/
theorem claim_C4_cex :
    shouldUseDescription c4CexRows = true ∧ specRejectCatColumn c4CexRows = false := by
  decide

/-- Claim C4 as amended: the description column replaces the category column
    iff NO category VALUE was collected (the column may be absent or entirely
    empty — not merely when no column exists), or more than half of the
    distinct collected trimmed values are generic terms, or fewer than 3
    distinct collected values face more than 5 rows; a whitespace-only cell
    contributes the empty string to the distinct values.  The collected
    values are stated through the independent one-pass construction
    specCollect.  The Debit/Credit ten-row sheet of the claim does fall back
    to the description column. -/
theorem claim_C4 :
    (∀ rows : List Row,
      shouldUseDescription rows = true ↔
        (specCollect rows catKeys = [] ∨
          2 * ((specCollect rows catKeys).filter
                (fun i => genericTerms.contains (lowerS i))).length >
              (specCollect rows catKeys).length ∨
          ((specCollect rows catKeys).length < 3 ∧ rows.length > 5))) ∧
    shouldUseDescription dcRows = true := by
  constructor
  · intro rows
    unfold shouldUseDescription
    rw [collectVals_eq_spec]
    by_cases hl : (specCollect rows catKeys).isEmpty
    · rw [if_pos hl]
      simp [List.isEmpty_iff.mp hl]
    · rw [if_neg hl]
      have hne : specCollect rows catKeys ≠ [] := by
        simpa [List.isEmpty_iff] using hl
      simp [hne, Bool.or_eq_true, Bool.and_eq_true, decide_eq_true_eq]
  · decide

/-- Counterexample to C5 as stated: a row whose first amount alias header
    Amount is present but empty while the later alias Cost holds 500.  The
    claim (first POPULATED alias) would read 500 and emit an expense; the
    code reads the empty Amount cell and drops the row. -/
theorem claim_C5_cex :
    (parseFileRows noGen day0 [] [] [c5Row]).expenses = [] ∧
    getValPopulated c5Row amountKeys = some (.num 500) := by
  decide

/-- Claim C5 as amended: getVal takes each field from the first alias whose
    header is PRESENT (case-insensitively) in the row, populated or not; a
    present-but-empty cell is returned as is and later aliases are never
    consulted.  First part: getVal is exactly lookup through the first
    present alias key.  Second part: as soon as the first alias matches a
    header, its cell is the result. -/
theorem claim_C5 :
    (∀ (row : Row) (keys : List String),
      getVal row keys = (firstPresentKey row keys).bind (fun fk => rowGet row fk)) ∧
    (∀ (row : Row) (k : String) (ks : List String) (fk : String),
      (row.map Prod.fst).find? (fun h => lowerS h == lowerS k) = some fk →
      getVal row (k :: ks) = rowGet row fk) := by
  constructor
  · intro row keys
    induction keys with
    | nil => rfl
    | cons k ks ih =>
      unfold getVal firstPresentKey
      simp only [List.findSome?]
      cases hf : (row.map Prod.fst).find? (fun h => lowerS h == lowerS k) with
      | some fk => rfl
      | none => exact ih
  · intro row k ks fk hf
    unfold getVal
    rw [hf]

/-- Witness for the amended C5: on the counterexample row the amount lookup
    lands on the present-but-empty Amount header. -/
theorem claim_C5_witness :
    getVal c5Row amountKeys = rowGet c5Row "Amount" :=
  claim_C5.2 c5Row "amount" ["amt", "cost", "price", "debit", "spending", "value"]
    "Amount" (by decide)

/-- Claim C6: in list mode a row emits no expense record — and raises no
    error, since the row transformer is a total function — exactly when its
    amount value is absent (no alias header or the empty cell), non-numeric,
    or parses to exactly 0; every other row emits one expense whose amount is
    the absolute value of the parsed amount, discarding the sign. -/
theorem claim_C6 (genParse : Cell → Option CalDate) (today : CalDate)
    (existing : List Category) (ai : List (String × String))
    (implicitSrc : Bool) (row : Row) (st : ImportState) :
    ((listRow genParse today existing ai implicitSrc row st).1 = none ↔ amountBad row) ∧
    (∀ e, (listRow genParse today existing ai implicitSrc row st).1 = some e →
      ∃ v q, getVal row amountKeys = some v ∧ parseFloatCell (some v) = some q ∧
        q ≠ 0 ∧ e.amount = |q|) := by
  unfold listRow
  dsimp only
  cases ha : getVal row amountKeys with
  | none =>
    exact ⟨iff_of_true rfl (Or.inl ha), fun e he => Option.noConfusion he⟩
  | some av =>
    dsimp only
    simp only [beq_iff_eq]
    by_cases hb : av = Cell.str ""
    · rw [if_pos hb]
      exact ⟨iff_of_true rfl (Or.inr (Or.inl (hb ▸ ha))),
        fun e he => Option.noConfusion he⟩
    · rw [if_neg hb]
      cases hp : parseFloatCell (some av) with
      | none =>
        exact ⟨iff_of_true rfl (Or.inr (Or.inr (Or.inl ⟨av, ha, hp⟩))),
          fun e he => Option.noConfusion he⟩
      | some q =>
        dsimp only
        by_cases hq : |q| = 0
        · rw [if_pos hq]
          exact ⟨iff_of_true rfl
              (Or.inr (Or.inr (Or.inr ⟨av, ha, abs_eq_zero.mp hq ▸ hp⟩))),
            fun e he => Option.noConfusion he⟩
        · rw [if_neg hq]
          have hbad : ¬ amountBad row := by
            rintro (h1 | h2 | ⟨v, hv, hvp⟩ | ⟨v, hv, hvp⟩)
            · rw [ha] at h1; cases h1
            · rw [ha] at h2
              injection h2 with h2'
              exact hb h2'
            · rw [ha] at hv
              injection hv with hv'
              rw [← hv', hp] at hvp
              cases hvp
            · rw [ha] at hv
              injection hv with hv'
              rw [← hv', hp] at hvp
              injection hvp with hvp'
              exact hq (by simp [hvp'])
          have hq0 : q ≠ 0 := fun h => hq (by simp [h])
          repeat' split
          all_goals
            exact ⟨iff_of_false (by simp) hbad,
              fun e he => by cases he; exact ⟨av, q, rfl, hp, hq0, rfl⟩⟩

/-- Witness for C6: the row with amount -200 emits exactly one expense whose
    amount is the absolute value 200. -/
theorem claim_C6_witness :
    ∃ v q, getVal c6Row amountKeys = some v ∧ parseFloatCell (some v) = some q ∧
      q ≠ 0 ∧ (⟨"uid-1", 200, "swiggy order", "uid-0", "2025-10-12", ""⟩ : Expense).amount = |q| :=
  (claim_C6 noGen day0 [] [] true c6Row ⟨0, []⟩).2
    ⟨"uid-1", 200, "swiggy order", "uid-0", "2025-10-12", ""⟩
    (by with_unfolding_all rfl)

theorem normFwd_stop {y m d : Int} (fuel : Nat) (h : ¬ d > daysInMonth y m) :
    normFwd (fuel + 1) y m d = ⟨y, m, d⟩ := by
  unfold normFwd
  rw [if_neg h]

theorem mkDateJS_valid {y m d : Int} (hy : 100 ≤ y) (hm1 : 1 ≤ m) (hm2 : m ≤ 12)
    (hd1 : 1 ≤ d) (hd2 : d ≤ daysInMonth y m) : mkDateJS y (m - 1) d = ⟨y, m, d⟩ := by
  unfold mkDateJS
  dsimp only
  rw [if_neg (by omega : ¬ (0 ≤ y ∧ y ≤ 99))]
  have h1 : (12 * y + (m - 1)).ediv 12 = y := by
    have he : (12 * y + (m - 1)).ediv 12 = (12 * y + (m - 1)) / 12 := rfl
    rw [he]; omega
  have h2 : (12 * y + (m - 1)).emod 12 = m - 1 := by
    have he : (12 * y + (m - 1)).emod 12 = (12 * y + (m - 1)) % 12 := rfl
    rw [he]; omega
  rw [h1, h2]
  rw [if_pos hd1]
  have h3 : m - 1 + 1 = m := by omega
  rw [h3]
  rw [show (12 : Nat) = 11 + 1 from rfl]
  exact normFwd_stop 11 (not_lt.mpr hd2)

/-- Claim C7: a string of shape D sep M sep YYYY (1-2 digit day and month,
    4-digit year, dash or slash separators) parses day-first: for any valid
    calendar date with a year of at least 100 (below 100 the JS Date
    constructor adds 1900) the result is that very date rendered YYYY-MM-DD,
    so 05-03-2024 renders 2024-03-05; a native date cell yields its local
    calendar date; and an absent value, an empty string, or a string neither
    matching the pattern nor accepted by the generic date parse all yield the
    current date at call time. -/
theorem claim_C7 (genParse : Cell → Option CalDate) (today : CalDate) :
    (∀ (s : String) (d m y : Int), matchDMY s = some (d, m, y) →
      100 ≤ y → 1 ≤ m → m ≤ 12 → 1 ≤ d → d ≤ daysInMonth y m →
      parseDate genParse today (some (.str s)) = fmtDate ⟨y, m, d⟩) ∧
    (∀ dd : CalDate, parseDate genParse today (some (.date dd)) = fmtDate dd) ∧
    parseDate genParse today none = fmtDate today ∧
    parseDate genParse today (some (.str "")) = fmtDate today ∧
    (∀ s : String, matchDMY s = none → genParse (.str s) = none →
      parseDate genParse today (some (.str s)) = fmtDate today) := by
  refine ⟨?_, fun dd => rfl, rfl, rfl, ?_⟩
  · intro s d m y hm hy hm1 hm2 hd1 hd2
    have hs : s ≠ "" := by
      intro h
      subst h
      exact Option.noConfusion hm
    have ht : jsTruthy (Cell.str s) = true := by simp [jsTruthy, hs]
    unfold parseDate
    dsimp only
    rw [ht, Bool.not_true, if_neg Bool.false_ne_true, hm]
    dsimp only
    rw [mkDateJS_valid hy hm1 hm2 hd1 hd2]
  · intro s hm hg
    by_cases hs : s = ""
    · subst hs; rfl
    · have ht : jsTruthy (Cell.str s) = true := by simp [jsTruthy, hs]
      unfold parseDate
      dsimp only
      rw [ht, Bool.not_true, if_neg Bool.false_ne_true, hm]
      dsimp only
      rw [hg]

/-- Witness for C7: the concrete input of the claim. -/
theorem claim_C7_witness :
    matchDMY "05-03-2024" = some (5, 3, 2024) ∧
    parseDate noGen day0 (some (.str "05-03-2024")) = fmtDate ⟨2024, 3, 5⟩ :=
  ⟨by decide, (claim_C7 noGen day0).1 "05-03-2024" 5 3 2024 (by decide) (by decide)
    (by decide) (by decide) (by decide) (by decide)⟩

/-- Counterexample to C8 as stated: with the oracle map binding the token as
    given ( Food, with a leading space) to c1 and its trimmed form Food to
    c2, the resolver returns c2 — the TRIMMED key wins, not the key as
    given, contradicting the claimed as-given-first priority (specMappedId
    follows the claim wording and picks c1). -/
theorem claim_C8_cex :
    (resolveCategory c8Cats c8Ai " Food" ⟨0, []⟩).1.id = "c2" ∧
    specMappedId c8Ai " Food" = some "c1" ∧
    mappedIdOf c8Ai " Food" = some "c2" := by
  decide

/-- Claim C8 as amended: the oracle map is consulted for the TRIMMED token
    first, then its lower-cased form, then the raw token as given (the order
    of mappedIdOf, line 128).  When the winning value is truthy, not the NEW
    sentinel and names an id present in existingCategories, the resolver
    returns it with isNewlyCreated false and the trimmed token recorded;
    any other winning value — empty, NEW, or an id not in
    existingCategories — makes the call behave exactly like a call with the
    empty oracle map, falling through to the local steps. -/
theorem claim_C8 (existing : List Category) (ai : List (String × String))
    (rawInput : String) (st : ImportState) :
    (∀ mid, mappedIdOf ai rawInput = some mid → mid ≠ "" → mid ≠ "NEW" →
      (existing.find? (fun c => c.id == mid)).isSome →
      resolveCategory existing ai rawInput st = (⟨mid, some (trimS rawInput), false⟩, st)) ∧
    (∀ mid, mappedIdOf ai rawInput = some mid →
      (mid = "" ∨ mid = "NEW" ∨ existing.find? (fun c => c.id == mid) = none) →
      resolveCategory existing ai rawInput st = resolveCategory existing [] rawInput st) ∧
    (mappedIdOf ai rawInput = none →
      resolveCategory existing ai rawInput st = resolveCategory existing [] rawInput st) := by
  refine ⟨?_, ?_, ?_⟩
  · intro mid hm h1 h2 h3
    unfold resolveCategory
    have ha : aiHitOf existing ai rawInput = some mid := by
      unfold aiHitOf
      rw [hm]
      dsimp only
      rw [if_pos ⟨h1, h2, h3⟩]
    rw [ha]
  · intro mid hm hbad
    unfold resolveCategory
    have h0 : aiHitOf existing ai rawInput = none := by
      unfold aiHitOf
      rw [hm]
      dsimp only
      rcases hbad with h | h | h
      · rw [if_neg (by simp [h])]
      · rw [if_neg (by simp [h])]
      · rw [if_neg (by simp [h])]
    rw [h0]
    rfl
  · intro hm
    unfold resolveCategory
    have h0 : aiHitOf existing ai rawInput = none := by
      unfold aiHitOf
      rw [hm]
    rw [h0]
    rfl

/-- Witness for the amended C8: a mapped token returns the mapped existing
    id with the original token recorded and no new category. -/
theorem claim_C8_witness :
    resolveCategory c9Cats [("food", "c1")] "food" ⟨0, []⟩ =
      (⟨"c1", some (trimS "food"), false⟩, (⟨0, []⟩ : ImportState)) :=
  (claim_C8 c9Cats [("food", "c1")] "food" ⟨0, []⟩).1 "c1" (by decide) (by decide)
    (by decide) (by decide)

/-- Counterexample to C9 as stated: the category token food is oracle-mapped
    to the existing category NAMED Food — equal to the token up to case — yet
    the importer still appends the token: the emitted description is
    lunch (food).  The claim requires the mapped name to DIFFER
    case-insensitively for the append to happen, so its only-if direction
    fails (the matrix-mode transformer performs that name check, the
    list-mode one does not). -/
theorem claim_C9_cex :
    (parseFileRows noGen day0 [("food", "c1")] c9Cats c9Rows).expenses.map
        Expense.description = ["lunch (food)"] ∧
    lowerS "Food" = lowerS "food" ∧
    c9Cats = [⟨"c1", "Food", "#ffffff", false⟩] := by
  with_unfolding_all decide

theorem if_drop_true_and {X : Prop} [Decidable X] {α : Type} {a b : α} :
    (if ¬false = true ∧ X then a else b) = if X then a else b := by
  by_cases hx : X
  · rw [if_pos ⟨Bool.false_ne_true, hx⟩, if_pos hx]
  · rw [if_neg (fun h => hx h.2), if_neg hx]

/-- Claim C9 as amended: in list mode with the explicit category column as
    the signal, the raw token is appended in parentheses to the description
    iff the resolver result is non-new AND carries the original token —
    which happens exactly when the oracle branch fired, that is, the token
    was oracle-mapped to an id still present in existingCategories — the
    mapped category has a truthy name, and the description does not already
    contain the token case-insensitively.  No comparison between the mapped
    name and the token takes place.  When the description itself is the
    signal, the emitted description is always the plain description value,
    never self-appended. -/
theorem claim_C9 (genParse : Cell → Option CalDate) (today : CalDate)
    (existing : List Category) (ai : List (String × String)) (row : Row)
    (st : ImportState) (cv : Cell)
    (hcv : getVal row catKeys = some cv) (htr : jsTruthy cv = true) :
    (∀ e, (listRow genParse today existing ai false row st).1 = some e →
      e.description =
        (if ¬ (resolveCategory existing ai (jsToString cv) st).1.isNew ∧
            jsTruthyS (resolveCategory existing ai (jsToString cv) st).1.originalName then
          match existing.find? (fun c =>
              c.id == (resolveCategory existing ai (jsToString cv) st).1.id) with
          | some c =>
            if c.name ≠ "" ∧
                ¬ strIncludes (lowerS (jsToString (descCell row))) (lowerS (jsToString cv))
            then jsToString (descCell row) ++ " (" ++ jsToString cv ++ ")"
            else jsToString (descCell row)
          | none => jsToString (descCell row)
        else jsToString (descCell row))) ∧
    ((resolveCategory existing ai (jsToString cv) st).1.originalName.isSome ↔
      (aiHitOf existing ai (jsToString cv)).isSome) ∧
    (∀ e, (listRow genParse today existing ai true row st).1 = some e →
      e.description = jsToString (descCell row)) := by
  refine ⟨?_, ?_, ?_⟩
  · intro e he
    unfold listRow at he
    dsimp only at he
    rw [hcv] at he
    cases ha : getVal row amountKeys with
    | none => rw [ha] at he; exact Option.noConfusion he
    | some av =>
      rw [ha] at he
      dsimp only at he
      cases hb : av == Cell.str "" with
      | true => rw [hb] at he; exact Option.noConfusion he
      | false =>
        rw [hb, if_neg Bool.false_ne_true] at he
        cases hp : parseFloatCell (some av) with
        | none => rw [hp] at he; exact Option.noConfusion he
        | some q =>
          rw [hp] at he
          dsimp only at he
          by_cases hq : |q| = 0
          · rw [if_pos hq] at he; exact Option.noConfusion he
          · rw [if_neg hq] at he
            rw [if_neg Bool.false_ne_true] at he
            dsimp only [Option.getD] at he
            rw [show jsTruthyO (some cv) = true from htr] at he
            rw [if_pos rfl] at he
            cases he
            rw [if_drop_true_and]
  · unfold resolveCategory
    cases ha : aiHitOf existing ai (jsToString cv) with
    | some mid => simp
    | none =>
      dsimp only
      unfold resolveLocal
      cases hl : lookupNC st.newCats (lowerS (trimS (jsToString cv))) with
      | some c => simp
      | none =>
        cases hf : existing.find? (fun c =>
            lowerS c.name == lowerS (trimS (jsToString cv))) with
        | some c => simp
        | none => simp
  · intro e he
    unfold listRow at he
    dsimp only at he
    cases ha : getVal row amountKeys with
    | none => rw [ha] at he; exact Option.noConfusion he
    | some av =>
      rw [ha] at he
      dsimp only at he
      cases hb : av == Cell.str "" with
      | true => rw [hb] at he; exact Option.noConfusion he
      | false =>
        rw [hb, if_neg Bool.false_ne_true] at he
        cases hp : parseFloatCell (some av) with
        | none => rw [hp] at he; exact Option.noConfusion he
        | some q =>
          rw [hp] at he
          dsimp only at he
          by_cases hq : |q| = 0
          · rw [if_pos hq] at he; exact Option.noConfusion he
          · rw [if_neg hq] at he
            rw [if_pos rfl] at he
            have hdt : jsTruthyO (some (descCell row)) = true := by
              unfold descCell
              cases hd : getVal row descKeys with
              | none => rfl
              | some v =>
                dsimp only [jsTruthyO]
                cases ht : jsTruthy v with
                | true => simpa using ht
                | false => rfl
            rw [hdt] at he
            rw [if_pos rfl] at he
            cases he
            rw [if_neg (fun h => h.1 rfl)]

/-- Witness for the amended C9: with the description as the signal, the
    emitted description is the plain description value. -/
theorem claim_C9_witness :
    (⟨"uid-1", 50, "lunch", "uid-0", "2025-10-12", ""⟩ : Expense).description =
      jsToString (descCell [("Description", Cell.str "lunch"),
        ("Amount", Cell.str "50"), ("Category", Cell.str "food")]) :=
  (claim_C9 noGen day0 c9Cats [("food", "c1")]
      [("Description", Cell.str "lunch"), ("Amount", Cell.str "50"),
        ("Category", Cell.str "food")]
      ⟨0, []⟩ (Cell.str "food") (by decide) (by decide)).2.2
    ⟨"uid-1", 50, "lunch", "uid-0", "2025-10-12", ""⟩ (by with_unfolding_all rfl)

/-- Claim C10: in list mode the amount string is parsed without stripping
    comma thousands separators — the cell 1,200 parses to 1 and the row is
    kept with amount 1 — while the matrix-mode category-cell parse strips the
    commas first and reads 1200.  Both behaviors are shown on the very
    pipeline. -/
theorem claim_C10 :
    parseFloatJS "1,200" = some 1 ∧
    parseFloatJS (stripCommas "1,200") = some 1200 ∧
    (parseFileRows noGen day0 [] [] c10ListRows).expenses.map Expense.amount = [1] ∧
    (parseFileRows noGen day0 [] [] c10MatrixRows).expenses.map Expense.amount = [1200] :=
  ⟨by with_unfolding_all rfl, by with_unfolding_all rfl,
    by with_unfolding_all rfl, by with_unfolding_all rfl⟩

end FB
